import Mathlib

/-!
Verification development for the read-ahead prefetch engine and its
benchmark harness (mountpoint-s3, examples/prefetch_benchmark.rs).

The harness (the visible Rust source) drives a prefetch engine through
repeated `read(offset, 256 KiB)` calls; the engine itself is specified
in the design document (Range Window Planner, PrefetchRequest, error
taxonomy).  The engine is embedded here from that specification; the
harness download loop and its throughput computation are embedded from
the Rust source.
-/

namespace PrefetchSpec

/-- Modelled from the spec: the Prefetcher configuration (section 4.1).
The engine source is not in the visible tree; fields follow the spec:
`initial_window_bytes`, `max_window_bytes`, `part_size`,
`sequential_growth_factor`. -/
structure PrefetchConfig where
  initialWindow : Nat
  maxWindow : Nat
  partSize : Nat
  growthFactor : Nat

/-- Modelled from the spec: outcome the network collaborator reports for
the fetch serving one `read` call (section 4.4 and section 7): chunks
delivered with matching fingerprint, a fingerprint mismatch, a size
mismatch against the size supplied at creation, or a network failure. -/
inductive FetchOutcome where
  | ok : FetchOutcome
  | badFingerprint : FetchOutcome
  | wrongSize : FetchOutcome
  | netError : FetchOutcome
deriving DecidableEq

/-- Modelled from the spec: the error taxonomy of section 7.
`poisonedError` is the immediate failure of every `read` after the
request has been permanently poisoned. -/
inductive PrefetchError where
  | integrityError : PrefetchError
  | invalidOffsetError : PrefetchError
  | rangeFetchError : PrefetchError
  | poisonedError : PrefetchError
deriving DecidableEq

/-- Modelled from the spec: the per-session state of a PrefetchRequest
(section 3, section 4.2): the true object content (size is its length),
the expected next-read position (`none` before the first read), the
window size from the last Planner decision, and the poisoned flag set by
an integrity or size mismatch. -/
structure PrefetchRequest where
  content : List Nat
  nextOffset : Option Nat
  window : Nat
  poisoned : Bool
deriving DecidableEq

/-- Modelled from the spec: a fresh request as handed out by
`Prefetcher.prefetch` (section 4.1): no read has happened yet and the
window starts at `initial_window_bytes`. -/
def freshRequest (cfg : PrefetchConfig) (content : List Nat) : PrefetchRequest :=
  { content := content, nextOffset := none, window := cfg.initialWindow, poisoned := false }

/-- Modelled from the spec: the window-size part of the Range Window
Planner (section 4.3): `min(max_window_bytes, previous * growth_factor)`
on confirmed sequential access, `initial_window_bytes` otherwise. -/
def plannerWindow (cfg : PrefetchConfig) (prevWindow : Nat) (wasSequential : Bool) : Nat :=
  if wasSequential then min cfg.maxWindow (prevWindow * cfg.growthFactor)
  else cfg.initialWindow

/-- Modelled from the spec: splitting a byte range of length `len`
starting at `start` into consecutive sub-ranges of at most `p` bytes
each (section 4.3). -/
def splitRange (p : Nat) (start len : Nat) : List (Nat × Nat) :=
  if h1 : len = 0 then []
  else if h2 : p = 0 then [(start, start + len)]
  else (start, start + min p len) :: splitRange p (start + min p len) (len - min p len)
termination_by len
decreasing_by
  simp_wf
  omega

/-- Modelled from the spec: the full Range Window Planner decision
(section 4.3): the window size together with the planned sub-ranges,
clipped to the object size and split at `part_size` granularity. -/
def plannerPlan (cfg : PrefetchConfig) (currentOffset size prevWindow : Nat)
    (wasSequential : Bool) : Nat × List (Nat × Nat) :=
  let w := plannerWindow cfg prevWindow wasSequential
  (w, splitRange cfg.partSize currentOffset (min (currentOffset + w) size - currentOffset))

/-- Modelled from the spec: `PrefetchRequest.read(offset, length)`
(section 4.2).  A poisoned request fails immediately; otherwise the
Planner window is recomputed (sequential when `offset` equals the
expected next-read position, reset to the initial window on a seek), a
fingerprint or size mismatch poisons the request and errors, a network
failure errors without poisoning, and on success the bytes
`content[offset ..< offset+len]` are returned, truncated at
end-of-object, with the next-read position advanced. -/
def read (cfg : PrefetchConfig) (st : PrefetchRequest) (offset len : Nat)
    (fetch : FetchOutcome) : Except PrefetchError (List Nat) × PrefetchRequest :=
  if st.poisoned then (Except.error PrefetchError.poisonedError, st)
  else
    let w := plannerWindow cfg st.window (st.nextOffset == some offset)
    match fetch with
    | FetchOutcome.badFingerprint =>
        (Except.error PrefetchError.integrityError,
         { st with poisoned := true, window := w })
    | FetchOutcome.wrongSize =>
        (Except.error PrefetchError.invalidOffsetError,
         { st with poisoned := true, window := w })
    | FetchOutcome.netError =>
        (Except.error PrefetchError.rangeFetchError, { st with window := w })
    | FetchOutcome.ok =>
        let bytes := (st.content.drop offset).take len
        (Except.ok bytes,
         { st with nextOffset := some (offset + bytes.length), window := w })

/-- Runs a list of `read` operations `(offset, length, fetch outcome)`
in order, collecting each result and the final request state. -/
def runReads (cfg : PrefetchConfig) :
    PrefetchRequest → List (Nat × Nat × FetchOutcome) →
    List (Except PrefetchError (List Nat)) × PrefetchRequest
  | st, [] => ([], st)
  | st, op :: ops =>
    let r := read cfg st op.1 op.2.1 op.2.2
    let rest := runReads cfg r.2 ops
    (r.1 :: rest.1, rest.2)

/-- Drives a request sequentially: each requested length is read at the
offset equal to the total number of bytes received so far, with the
network delivering every range successfully.  Returns the concatenated
bytes, the list of Planner window decisions, the final received total,
and the final state. -/
def driveSequential (cfg : PrefetchConfig) :
    PrefetchRequest → Nat → List Nat → List Nat × List Nat × Nat × PrefetchRequest
  | st, received, [] => ([], [], received, st)
  | st, received, len :: lens =>
    match read cfg st received len FetchOutcome.ok with
    | (Except.ok bytes, st1) =>
      let rest := driveSequential cfg st1 (received + bytes.length) lens
      (bytes ++ rest.1, st1.window :: rest.2.1, rest.2.2)
    | (Except.error _, st1) => ([], [], received, st1)

/-- The harness download loop of `prefetch_benchmark.rs` (lines
115-127) run against the modelled engine: read 256 KiB at the offset
equal to the bytes received so far, add the returned length, stop once
`received >= size`; any error aborts (`none`).  `fuel` bounds the
number of iterations so the model is total. -/
def harnessEngineLoop (cfg : PrefetchConfig) :
    Nat → PrefetchRequest → Nat → List Nat → Option (Nat × List Nat)
  | 0, _, _, _ => none
  | fuel + 1, st, received, acc =>
    if st.content.length ≤ received then some (received, acc)
    else
      match read cfg st received (256 <<< 10) FetchOutcome.ok with
      | (Except.ok bytes, st1) =>
        harnessEngineLoop cfg fuel st1 (received + bytes.length) (acc ++ bytes)
      | (Except.error _, _) => none

/-- Outcome of the harness download loop: clean break with the final
received total, abort on a read error (the Rust code panics), or fuel
exhaustion (the loop is still running). -/
inductive RunOutcome where
  | done : Nat → RunOutcome
  | aborted : RunOutcome
  | outOfFuel : RunOutcome
deriving DecidableEq

/-- The harness download loop of `prefetch_benchmark.rs` (lines
115-127) with the engine abstracted as an oracle `readFn` mapping the
offset of a read call to `some` returned byte count or `none` for an
error.  Records every issued read call as `(offset, length)`; the
length is always `256 << 10` exactly as in the source. -/
def benchRun (size : Nat) (readFn : Nat → Option Nat) :
    Nat → Nat → List (Nat × Nat) × RunOutcome
  | 0, _ => ([], RunOutcome.outOfFuel)
  | fuel + 1, received =>
    if size ≤ received then ([], RunOutcome.done received)
    else
      match readFn received with
      | some n =>
        let rest := benchRun size readFn fuel (received + n)
        ((received, 256 <<< 10) :: rest.1, rest.2)
      | none => ([(received, 256 <<< 10)], RunOutcome.aborted)

/-- A call trace is chained from `r` when every call requests exactly
262144 bytes at the offset equal to the running total of bytes received
by the earlier calls, and a failed call is the last. -/
def chainedCalls (readFn : Nat → Option Nat) : Nat → List (Nat × Nat) → Bool
  | _, [] => true
  | r, c :: cs =>
    c.1 == r && c.2 == 262144 &&
      (match readFn c.1 with
       | some n => chainedCalls readFn (r + n) cs
       | none => cs == [])

/-- The throughput figure printed by `prefetch_benchmark.rs` line 137,
with the f64 arithmetic embedded as exact rationals:
`(8.8 * received_size) / elapsed_seconds / (1024 * 1024 * 1024)`. -/
def reportedGbps (receivedSize elapsedSeconds : ℚ) : ℚ :=
  (8.8 * receivedSize) / elapsedSeconds / (1024 * 1024 * 1024)

/-- Ranges chain consecutively from `start` to `stop`. -/
def isConsecutive : Nat → Nat → List (Nat × Nat) → Bool
  | start, stop, [] => start == stop
  | start, stop, r :: rs => r.1 == start && isConsecutive r.2 stop rs

/-- A read result is a success. -/
def isOkResult : Except PrefetchError (List Nat) → Bool
  | Except.ok _ => true
  | Except.error _ => false

/-! ## Helper lemmas -/

theorem read_poisoned (cfg : PrefetchConfig) (st : PrefetchRequest) (offset len : Nat)
    (fetch : FetchOutcome) (h : st.poisoned = true) :
    read cfg st offset len fetch = (Except.error PrefetchError.poisonedError, st) := by
  simp [read, h]

theorem read_ok_eq (cfg : PrefetchConfig) (st : PrefetchRequest) (offset len : Nat)
    (h : st.poisoned = false) :
    read cfg st offset len FetchOutcome.ok =
      (Except.ok ((st.content.drop offset).take len),
       { st with
           nextOffset := some (offset + ((st.content.drop offset).take len).length),
           window := plannerWindow cfg st.window (st.nextOffset == some offset) }) := by
  simp [read, h]

/-- Numeric mirror of `driveSequential` tracking only object size,
expected next offset, window and received total; used to evaluate
concrete scenarios without touching the byte lists. -/
def driveNums (cfg : PrefetchConfig) : Nat → Option Nat → Nat → Nat → List Nat → List Nat × Nat
  | _, _, _, received, [] => ([], received)
  | size, nextOff, window, received, len :: lens =>
    let w := plannerWindow cfg window (nextOff == some received)
    let bl := min len (size - received)
    let rest := driveNums cfg size (some (received + bl)) w (received + bl) lens
    (w :: rest.1, rest.2)

theorem drive_eq_driveNums (cfg : PrefetchConfig) :
    ∀ (lens : List Nat) (st : PrefetchRequest) (received : Nat), st.poisoned = false →
      (driveSequential cfg st received lens).2.1 =
        (driveNums cfg st.content.length st.nextOffset st.window received lens).1 ∧
      (driveSequential cfg st received lens).2.2.1 =
        (driveNums cfg st.content.length st.nextOffset st.window received lens).2
  | [], st, received, hp => by simp [driveSequential, driveNums]
  | len :: lens, st, received, hp => by
    have hread := read_ok_eq cfg st received len hp
    have hbl : ((st.content.drop received).take len).length =
        min len (st.content.length - received) := by
      rw [List.length_take, List.length_drop]
    have ih := drive_eq_driveNums cfg lens
      { st with
          nextOffset := some (received + ((st.content.drop received).take len).length),
          window := plannerWindow cfg st.window (st.nextOffset == some received) }
      (received + ((st.content.drop received).take len).length) (by simp [hp])
    simp only [driveSequential, hread]
    rw [driveNums]
    simp only at ih
    rw [hbl] at ih ⊢
    exact ⟨by rw [ih.1], by rw [ih.2]⟩

theorem runReads_poisoned (cfg : PrefetchConfig) :
    ∀ (ops : List (Nat × Nat × FetchOutcome)) (st : PrefetchRequest), st.poisoned = true →
      (∀ res ∈ (runReads cfg st ops).1, isOkResult res = false) ∧
      (runReads cfg st ops).2 = st
  | [], st, _ => ⟨by intro res hres; simp [runReads] at hres, rfl⟩
  | op :: ops, st, h => by
    have hr := read_poisoned cfg st op.1 op.2.1 op.2.2 h
    have ih := runReads_poisoned cfg ops st h
    constructor
    · intro res hres
      simp only [runReads, hr, List.mem_cons] at hres
      rcases hres with hres | hres
      · simp [hres, isOkResult]
      · exact ih.1 res hres
    · simp only [runReads, hr]
      exact ih.2

theorem plannerWindow_le (cfg : PrefetchConfig) (prevWindow : Nat) (b : Bool)
    (hinit : cfg.initialWindow ≤ cfg.maxWindow) :
    plannerWindow cfg prevWindow b ≤ cfg.maxWindow := by
  cases b <;> simp [plannerWindow, hinit]

theorem read_window_le (cfg : PrefetchConfig) (st : PrefetchRequest) (offset len : Nat)
    (fetch : FetchOutcome) (hinit : cfg.initialWindow ≤ cfg.maxWindow)
    (hw : st.window ≤ cfg.maxWindow) :
    (read cfg st offset len fetch).2.window ≤ cfg.maxWindow := by
  by_cases h : st.poisoned = true
  · simp [read_poisoned cfg st offset len fetch h]
    exact hw
  · have h0 : st.poisoned = false := by simpa using h
    have hpw := plannerWindow_le cfg st.window (st.nextOffset == some offset) hinit
    cases fetch <;> simp [read, h0] <;> exact hpw

theorem runReads_window_le (cfg : PrefetchConfig) (hinit : cfg.initialWindow ≤ cfg.maxWindow) :
    ∀ (ops : List (Nat × Nat × FetchOutcome)) (st : PrefetchRequest),
      st.window ≤ cfg.maxWindow → (runReads cfg st ops).2.window ≤ cfg.maxWindow
  | [], _, hw => hw
  | op :: ops, st, hw => by
    simp only [runReads]
    exact runReads_window_le cfg hinit ops _
      (read_window_le cfg st op.1 op.2.1 op.2.2 hinit hw)

theorem drop_min_length {α : Type} (l : List α) (n : Nat) :
    l.drop (min n l.length) = l.drop n := by
  rcases Nat.le_total n l.length with h | h
  · rw [Nat.min_eq_left h]
  · rw [Nat.min_eq_right h, List.drop_eq_nil_of_le h,
      List.drop_eq_nil_of_le (Nat.le_refl _)]

theorem take_append_drop_take {α : Type} (l : List α) (n : Nat) :
    l.take n ++ l.drop (l.take n).length = l := by
  rw [List.length_take, drop_min_length, List.take_append_drop]

theorem driveSequential_spec (cfg : PrefetchConfig) :
    ∀ (lens : List Nat) (st : PrefetchRequest) (received : Nat),
      st.poisoned = false → received + lens.sum ≤ st.content.length →
      (driveSequential cfg st received lens).1 =
        (st.content.drop received).take lens.sum ∧
      (driveSequential cfg st received lens).2.2.1 = received + lens.sum
  | [], st, received, _, _ => by simp [driveSequential]
  | len :: lens, st, received, hp, hle => by
    have hsum : (len :: lens).sum = len + lens.sum := by simp
    rw [hsum] at hle ⊢
    have hread := read_ok_eq cfg st received len hp
    have hlen : ((st.content.drop received).take len).length = len := by
      rw [List.length_take, List.length_drop]
      omega
    have ih := driveSequential_spec cfg lens
      { st with
          nextOffset := some (received + ((st.content.drop received).take len).length),
          window := plannerWindow cfg st.window (st.nextOffset == some received) }
      (received + ((st.content.drop received).take len).length)
      (by simp [hp]) (by simp; omega)
    simp only [driveSequential, hread]
    rw [hlen] at ih ⊢
    simp only at ih
    constructor
    · rw [ih.1, List.take_add, List.drop_drop]
    · rw [ih.2]
      omega

theorem harnessEngineLoop_spec (cfg : PrefetchConfig) :
    ∀ (fuel : Nat) (st : PrefetchRequest) (received : Nat) (acc : List Nat),
      st.poisoned = false → received ≤ st.content.length →
      st.content.length - received < fuel →
      harnessEngineLoop cfg fuel st received acc =
        some (st.content.length, acc ++ st.content.drop received)
  | 0, _, _, _, _, _, hfuel => by omega
  | fuel + 1, st, received, acc, hp, hle, hfuel => by
    by_cases h : st.content.length ≤ received
    · have heq : received = st.content.length := Nat.le_antisymm hle h
      rw [harnessEngineLoop, if_pos h, heq, List.drop_eq_nil_of_le (Nat.le_refl _)]
      simp
    · have hlt : received < st.content.length := Nat.lt_of_not_le h
      have hread := read_ok_eq cfg st received (256 <<< 10) hp
      have hbl : ((st.content.drop received).take (256 <<< 10)).length =
          min (256 <<< 10) (st.content.length - received) := by
        rw [List.length_take, List.length_drop]
      have hpos : 0 < (256 <<< 10 : Nat) := by decide
      have ih := harnessEngineLoop_spec cfg fuel
        { st with
            nextOffset :=
              some (received + ((st.content.drop received).take (256 <<< 10)).length),
            window := plannerWindow cfg st.window (st.nextOffset == some received) }
        (received + ((st.content.drop received).take (256 <<< 10)).length)
        (acc ++ (st.content.drop received).take (256 <<< 10))
        (by simp [hp]) (by simp [hbl]; omega) (by simp [hbl]; omega)
      rw [harnessEngineLoop, if_neg h, hread]
      dsimp only
      simp only at ih
      rw [ih, List.append_assoc]
      have hdrop : (st.content.drop received).take (256 <<< 10) ++
          st.content.drop
            (received + ((st.content.drop received).take (256 <<< 10)).length) =
          st.content.drop received := by
        rw [← List.drop_drop, take_append_drop_take]
      rw [hdrop]

theorem benchRun_chained (size : Nat) (readFn : Nat → Option Nat) :
    ∀ (fuel received : Nat),
      chainedCalls readFn received (benchRun size readFn fuel received).1 = true := by
  intro fuel
  induction fuel with
  | zero =>
    intro received
    rw [benchRun]
    rw [chainedCalls]
  | succ n ih =>
    intro received
    rw [benchRun]
    by_cases h : size ≤ received
    · rw [if_pos h]
      rw [chainedCalls]
    · rw [if_neg h]
      cases hr : readFn received with
      | some k =>
        simp only
        rw [chainedCalls]
        simp [hr, ih (received + k)]
      | none =>
        simp only
        rw [chainedCalls]
        simp [hr]

theorem benchRun_done_ge (size : Nat) (readFn : Nat → Option Nat) :
    ∀ (fuel received r : Nat),
      (benchRun size readFn fuel received).2 = RunOutcome.done r → size ≤ r := by
  intro fuel
  induction fuel with
  | zero =>
    intro received r h
    rw [benchRun] at h
    exact absurd h (by simp)
  | succ n ih =>
    intro received r h
    rw [benchRun] at h
    by_cases hle : size ≤ received
    · rw [if_pos hle] at h
      simp at h
      omega
    · rw [if_neg hle] at h
      cases hr : readFn received with
      | some k =>
        rw [hr] at h
        exact ih (received + k) r h
      | none =>
        rw [hr] at h
        simp at h

theorem benchRun_progress (size : Nat) (readFn : Nat → Option Nat)
    (hprog : ∀ off, off < size → ∃ n, readFn off = some n ∧ 1 ≤ n) :
    ∀ (fuel received : Nat), size - received < fuel →
      ∃ r, (benchRun size readFn fuel received).2 = RunOutcome.done r := by
  intro fuel
  induction fuel with
  | zero =>
    intro received h
    omega
  | succ n ih =>
    intro received hfuel
    rw [benchRun]
    by_cases hle : size ≤ received
    · rw [if_pos hle]
      exact ⟨received, rfl⟩
    · rw [if_neg hle]
      obtain ⟨k, hk, hk1⟩ := hprog received (by omega)
      rw [hk]
      simp only
      exact ih (received + k) (by omega)

theorem splitRange_nil (p start : Nat) : splitRange p start 0 = [] := by
  rw [splitRange]
  simp

theorem splitRange_consecutive (p : Nat) (len : Nat) :
    ∀ start, isConsecutive start (start + len) (splitRange p start len) = true := by
  induction len using Nat.strong_induction_on with
  | _ len ih =>
    intro start
    rw [splitRange]
    by_cases h1 : len = 0
    · subst h1
      simp [isConsecutive]
    · rw [dif_neg h1]
      by_cases h2 : p = 0
      · rw [dif_pos h2]
        simp [isConsecutive]
      · rw [dif_neg h2]
        have hmin1 : 1 ≤ min p len := by omega
        have hih := ih (len - min p len) (by omega) (start + min p len)
        have harith : start + min p len + (len - min p len) = start + len := by omega
        rw [harith] at hih
        simp only [isConsecutive, beq_self_eq_true, Bool.true_and]
        exact hih

theorem splitRange_chunks (p : Nat) (hp : 0 < p) (len : Nat) :
    ∀ start, ∀ r ∈ splitRange p start len, r.2 - r.1 ≤ p ∧ r.1 < r.2 := by
  induction len using Nat.strong_induction_on with
  | _ len ih =>
    intro start r hr
    rw [splitRange] at hr
    by_cases h1 : len = 0
    · rw [dif_pos h1] at hr
      simp at hr
    · rw [dif_neg h1, dif_neg (by omega : ¬p = 0)] at hr
      simp only [List.mem_cons] at hr
      rcases hr with hr | hr
      · subst hr
        constructor <;> simp <;> omega
      · exact ih (len - min p len) (by omega) (start + min p len) r hr

theorem splitRange_single (p start len : Nat) (h1 : 0 < len) (h2 : len ≤ p) :
    splitRange p start len = [(start, start + len)] := by
  rw [splitRange, dif_neg (by omega : ¬len = 0), dif_neg (by omega : ¬p = 0),
    Nat.min_eq_right h2]
  simp [splitRange_nil]

theorem plannerPlan_fst (cfg : PrefetchConfig) (currentOffset size prevWindow : Nat)
    (wasSequential : Bool) :
    (plannerPlan cfg currentOffset size prevWindow wasSequential).1 =
      plannerWindow cfg prevWindow wasSequential := rfl

theorem plannerPlan_snd (cfg : PrefetchConfig) (currentOffset size prevWindow : Nat)
    (wasSequential : Bool) :
    (plannerPlan cfg currentOffset size prevWindow wasSequential).2 =
      splitRange cfg.partSize currentOffset
        (min (currentOffset + plannerWindow cfg prevWindow wasSequential) size -
          currentOffset) := rfl

/-! ## Claim theorems -/

/-- C1: for every sequential read pattern covering `[0, size)` with no
gaps, the total number of bytes returned equals `size` and the
concatenation of the returned slices equals the object content; in
particular the harness loop, reading 256 KiB at the cumulative received
offset, ends with `received_size == size` having received exactly the
object. -/
theorem sequential_reads_return_object (cfg : PrefetchConfig) (c : List Nat)
    (lens : List Nat) (hcover : lens.sum = c.length) :
    (driveSequential cfg (freshRequest cfg c) 0 lens).1 = c ∧
    (driveSequential cfg (freshRequest cfg c) 0 lens).2.2.1 = c.length ∧
    harnessEngineLoop cfg (c.length + 1) (freshRequest cfg c) 0 [] =
      some (c.length, c) := by
  have h1 := driveSequential_spec cfg lens (freshRequest cfg c) 0 rfl
    (by simp [freshRequest, hcover])
  have h2 := harnessEngineLoop_spec cfg (c.length + 1) (freshRequest cfg c) 0 []
    rfl (by simp [freshRequest]) (by simp [freshRequest])
  refine ⟨?_, ?_, ?_⟩
  · rw [h1.1]
    simp [freshRequest, hcover]
  · rw [h1.2, hcover]
    omega
  · rw [h2]
    simp [freshRequest]

/-- Witness for C1: a 3-byte object read as `read(0,1)` then
`read(1,2)` yields the object, and the harness loop over the same
object received all 3 bytes. -/
theorem sequential_reads_return_object_witness :
    ([1, 2] : List Nat).sum = ([5, 6, 7] : List Nat).length ∧
    (driveSequential ⟨2, 8, 4, 2⟩ (freshRequest ⟨2, 8, 4, 2⟩ [5, 6, 7]) 0 [1, 2]).1 =
      [5, 6, 7] ∧
    (driveSequential ⟨2, 8, 4, 2⟩ (freshRequest ⟨2, 8, 4, 2⟩ [5, 6, 7]) 0 [1, 2]).2.2.1 = 3 ∧
    harnessEngineLoop ⟨2, 8, 4, 2⟩ 4 (freshRequest ⟨2, 8, 4, 2⟩ [5, 6, 7]) 0 [] =
      some (3, [5, 6, 7]) := by
  have h := sequential_reads_return_object ⟨2, 8, 4, 2⟩ [5, 6, 7] [1, 2] (by decide)
  exact ⟨by decide, h.1, h.2.1, h.2.2⟩

/-- C5: an object of 1,000,000 bytes with initial window 65536, max
window 1048576, growth factor 2 and part size 524288, read
sequentially in 262144-byte calls, completes in exactly 4 reads (the
first 3 reads leave the object incomplete at 786432 bytes) and the
Planner window decisions are 65536, 131072, 262144, 524288. -/
theorem planner_concrete_scenario (c : List Nat) (hc : c.length = 1000000) :
    (driveSequential ⟨65536, 1048576, 524288, 2⟩
      (freshRequest ⟨65536, 1048576, 524288, 2⟩ c) 0
      [262144, 262144, 262144, 262144]).2.1 = [65536, 131072, 262144, 524288] ∧
    (driveSequential ⟨65536, 1048576, 524288, 2⟩
      (freshRequest ⟨65536, 1048576, 524288, 2⟩ c) 0
      [262144, 262144, 262144, 262144]).2.2.1 = 1000000 ∧
    (driveSequential ⟨65536, 1048576, 524288, 2⟩
      (freshRequest ⟨65536, 1048576, 524288, 2⟩ c) 0
      [262144, 262144, 262144]).2.2.1 = 786432 := by
  have h4 := drive_eq_driveNums ⟨65536, 1048576, 524288, 2⟩
    [262144, 262144, 262144, 262144] (freshRequest ⟨65536, 1048576, 524288, 2⟩ c) 0 rfl
  have h3 := drive_eq_driveNums ⟨65536, 1048576, 524288, 2⟩
    [262144, 262144, 262144] (freshRequest ⟨65536, 1048576, 524288, 2⟩ c) 0 rfl
  refine ⟨?_, ?_, ?_⟩
  · rw [h4.1]
    simp only [freshRequest]
    rw [hc]
    decide
  · rw [h4.2]
    simp only [freshRequest]
    rw [hc]
    decide
  · rw [h3.2]
    simp only [freshRequest]
    rw [hc]
    decide

/-- Witness for C5 on the all-zero object of 1,000,000 bytes. -/
theorem planner_concrete_scenario_witness :
    (List.replicate 1000000 (0 : Nat)).length = 1000000 ∧
    (driveSequential ⟨65536, 1048576, 524288, 2⟩
      (freshRequest ⟨65536, 1048576, 524288, 2⟩ (List.replicate 1000000 (0 : Nat))) 0
      [262144, 262144, 262144, 262144]).2.1 = [65536, 131072, 262144, 524288] ∧
    (driveSequential ⟨65536, 1048576, 524288, 2⟩
      (freshRequest ⟨65536, 1048576, 524288, 2⟩ (List.replicate 1000000 (0 : Nat))) 0
      [262144, 262144, 262144, 262144]).2.2.1 = 1000000 := by
  have hl : (List.replicate 1000000 (0 : Nat)).length = 1000000 :=
    List.length_replicate 1000000 0
  have h := planner_concrete_scenario (List.replicate 1000000 (0 : Nat)) hl
  exact ⟨hl, h.1, h.2.1⟩

/-- C4: the Range Window Planner is a pure function whose window is
`min(max_window_bytes, previous * growth_factor)` on sequential access
and `initial_window_bytes` otherwise; its ranges tile
`[current_offset, min(current_offset + window, size))` consecutively,
every sub-range is nonempty and at most `part_size` bytes, and when the
remainder of the object is smaller than one part (and fits the window)
a single range covering exactly the remainder is issued. -/
theorem planner_plan_spec (cfg : PrefetchConfig) (currentOffset size prevWindow : Nat)
    (wasSequential : Bool) (hpart : 0 < cfg.partSize) (hoff : currentOffset ≤ size) :
    (plannerPlan cfg currentOffset size prevWindow wasSequential).1 =
      (if wasSequential then min cfg.maxWindow (prevWindow * cfg.growthFactor)
       else cfg.initialWindow) ∧
    isConsecutive currentOffset
      (min (currentOffset + (plannerPlan cfg currentOffset size prevWindow wasSequential).1)
        size)
      (plannerPlan cfg currentOffset size prevWindow wasSequential).2 = true ∧
    (∀ r ∈ (plannerPlan cfg currentOffset size prevWindow wasSequential).2,
      r.2 - r.1 ≤ cfg.partSize ∧ r.1 < r.2) ∧
    (0 < size - currentOffset → size - currentOffset < cfg.partSize →
      size - currentOffset ≤ (plannerPlan cfg currentOffset size prevWindow wasSequential).1 →
      (plannerPlan cfg currentOffset size prevWindow wasSequential).2 =
        [(currentOffset, size)]) := by
  refine ⟨by rw [plannerPlan_fst, plannerWindow], ?_, ?_, ?_⟩
  · rw [plannerPlan_fst, plannerPlan_snd]
    have hcons := splitRange_consecutive cfg.partSize
      (min (currentOffset + plannerWindow cfg prevWindow wasSequential) size - currentOffset)
      currentOffset
    have harith : currentOffset +
        (min (currentOffset + plannerWindow cfg prevWindow wasSequential) size -
          currentOffset) =
        min (currentOffset + plannerWindow cfg prevWindow wasSequential) size := by
      omega
    rw [harith] at hcons
    exact hcons
  · rw [plannerPlan_snd]
    exact splitRange_chunks cfg.partSize hpart _ currentOffset
  · intro hrem hsmall hwin
    rw [plannerPlan_fst] at hwin
    rw [plannerPlan_snd]
    have hclip : min (currentOffset + plannerWindow cfg prevWindow wasSequential) size -
        currentOffset = size - currentOffset := by
      omega
    rw [hclip, splitRange_single cfg.partSize currentOffset (size - currentOffset) hrem
      (by omega)]
    have : currentOffset + (size - currentOffset) = size := by omega
    rw [this]

/-- Witness for C4: offset 10 into a 100-byte object, part size 8,
previous window 4, sequential growth capped at 64. -/
theorem planner_plan_spec_witness :
    (0 : Nat) < 8 ∧ (10 : Nat) ≤ 100 ∧
    (plannerPlan ⟨16, 64, 8, 2⟩ 10 100 4 true).1 = 8 ∧
    isConsecutive 10 (min (10 + (plannerPlan ⟨16, 64, 8, 2⟩ 10 100 4 true).1) 100)
      (plannerPlan ⟨16, 64, 8, 2⟩ 10 100 4 true).2 = true ∧
    (∀ r ∈ (plannerPlan ⟨16, 64, 8, 2⟩ 10 100 4 true).2,
      r.2 - r.1 ≤ 8 ∧ r.1 < r.2) := by
  have h := planner_plan_spec ⟨16, 64, 8, 2⟩ 10 100 4 true (by decide) (by decide)
  exact ⟨by decide, by decide, by rw [h.1]; decide, h.2.1, h.2.2.1⟩

/-- C2: once a fetched range reports a fingerprint mismatch
(IntegrityError) or a size mismatch, the triggering read fails, the
request is poisoned, and every subsequent read on the request fails
immediately while the request stays poisoned, whatever the offsets. -/
theorem mismatch_poisons_request (cfg : PrefetchConfig) (st : PrefetchRequest)
    (offset len : Nat) (fetch : FetchOutcome) (hp : st.poisoned = false)
    (hf : fetch = FetchOutcome.badFingerprint ∨ fetch = FetchOutcome.wrongSize) :
    isOkResult (read cfg st offset len fetch).1 = false ∧
    (read cfg st offset len fetch).2.poisoned = true ∧
    ∀ ops : List (Nat × Nat × FetchOutcome),
      (∀ res ∈ (runReads cfg (read cfg st offset len fetch).2 ops).1,
        isOkResult res = false) ∧
      (runReads cfg (read cfg st offset len fetch).2 ops).2.poisoned = true := by
  have hpois : (read cfg st offset len fetch).2.poisoned = true := by
    rcases hf with hf | hf <;> subst hf <;> simp [read, hp]
  have herr : isOkResult (read cfg st offset len fetch).1 = false := by
    rcases hf with hf | hf <;> subst hf <;> simp [read, hp, isOkResult]
  refine ⟨herr, hpois, fun ops => ?_⟩
  have h2 := runReads_poisoned cfg ops (read cfg st offset len fetch).2 hpois
  exact ⟨h2.1, by rw [h2.2]; exact hpois⟩

/-- Witness for C2 at a concrete request: a fingerprint mismatch on a
fresh 3-byte object poisons the request and a subsequent 2-read
sequence returns only failures. -/
theorem mismatch_poisons_request_witness :
    (freshRequest ⟨16, 64, 8, 2⟩ [1, 2, 3]).poisoned = false ∧
    isOkResult
      (read ⟨16, 64, 8, 2⟩ (freshRequest ⟨16, 64, 8, 2⟩ [1, 2, 3]) 0 2
        FetchOutcome.badFingerprint).1 = false ∧
    (read ⟨16, 64, 8, 2⟩ (freshRequest ⟨16, 64, 8, 2⟩ [1, 2, 3]) 0 2
        FetchOutcome.badFingerprint).2.poisoned = true ∧
    ((runReads ⟨16, 64, 8, 2⟩
        (read ⟨16, 64, 8, 2⟩ (freshRequest ⟨16, 64, 8, 2⟩ [1, 2, 3]) 0 2
          FetchOutcome.badFingerprint).2
        [(0, 2, FetchOutcome.ok), (2, 1, FetchOutcome.ok)]).1.all
      fun r => !isOkResult r) = true := by
  have h := mismatch_poisons_request ⟨16, 64, 8, 2⟩
    (freshRequest ⟨16, 64, 8, 2⟩ [1, 2, 3]) 0 2 FetchOutcome.badFingerprint rfl (Or.inl rfl)
  refine ⟨rfl, h.1, h.2.1, ?_⟩
  rw [List.all_eq_true]
  intro x hx
  simp [(h.2.2 [(0, 2, FetchOutcome.ok), (2, 1, FetchOutcome.ok)]).1 x hx]

/-- C3: on a non-poisoned request a successful read returns the slice
`content[offset ..< offset+len]` and never an error; in particular a
read at or past end-of-object returns zero bytes, and a read whose
range extends past the object size truncates to exactly the remaining
bytes. -/
theorem read_end_of_object (cfg : PrefetchConfig) (st : PrefetchRequest) (offset len : Nat)
    (hp : st.poisoned = false) :
    (read cfg st offset len FetchOutcome.ok).1 =
      Except.ok ((st.content.drop offset).take len) ∧
    (st.content.length ≤ offset →
      (read cfg st offset len FetchOutcome.ok).1 = Except.ok []) ∧
    (st.content.length ≤ offset + len →
      (read cfg st offset len FetchOutcome.ok).1 = Except.ok (st.content.drop offset)) := by
  refine ⟨by simp [read, hp], fun h => ?_, fun h => ?_⟩
  · simp [read, hp, List.drop_eq_nil_of_le h]
  · have hlen : (st.content.drop offset).length ≤ len := by
      rw [List.length_drop]
      omega
    simp [read, hp, List.take_of_length_le hlen]

/-- Witness for C3: a 3-byte object, read at offset 5 past the end and
read at offset 1 with a range extending past the end. -/
theorem read_end_of_object_witness :
    (freshRequest ⟨16, 64, 8, 2⟩ [7, 8, 9]).poisoned = false ∧
    ([7, 8, 9] : List Nat).length ≤ 5 ∧
    (read ⟨16, 64, 8, 2⟩ (freshRequest ⟨16, 64, 8, 2⟩ [7, 8, 9]) 5 2
      FetchOutcome.ok).1 = Except.ok [] ∧
    (read ⟨16, 64, 8, 2⟩ (freshRequest ⟨16, 64, 8, 2⟩ [7, 8, 9]) 1 10
      FetchOutcome.ok).1 = Except.ok [8, 9] := by
  refine ⟨rfl, by decide, ?_, ?_⟩
  · exact (read_end_of_object ⟨16, 64, 8, 2⟩ (freshRequest ⟨16, 64, 8, 2⟩ [7, 8, 9]) 5 2
      rfl).2.1 (by decide)
  · have h := (read_end_of_object ⟨16, 64, 8, 2⟩ (freshRequest ⟨16, 64, 8, 2⟩ [7, 8, 9]) 1 10
      rfl).2.2 (by decide)
    simpa using h

/-- C7: a backward seek (offset strictly below the expected next-read
position) on a non-poisoned request succeeds, returns the correct bytes
for the requested range, and resets the window used for subsequent
planning to `initial_window_bytes`. -/
theorem backward_seek_resets_window (cfg : PrefetchConfig) (st : PrefetchRequest)
    (offset len prevEnd : Nat) (hp : st.poisoned = false)
    (hn : st.nextOffset = some prevEnd) (hlt : offset < prevEnd) :
    (read cfg st offset len FetchOutcome.ok).1 =
      Except.ok ((st.content.drop offset).take len) ∧
    (read cfg st offset len FetchOutcome.ok).2.window = cfg.initialWindow := by
  have hseq : (st.nextOffset == some offset) = false := by
    rw [hn, beq_eq_false_iff_ne]
    intro h
    have h2 := Option.some.inj h
    omega
  exact ⟨by simp [read, hp], by simp [read, hp, hseq, plannerWindow]⟩

/-- Witness for C7: after a read ending at offset 4, a backward seek to
offset 1 returns the bytes at 1..3 and the window drops back to the
initial 16 from a grown 32. -/
theorem backward_seek_resets_window_witness :
    (PrefetchRequest.mk [5, 6, 7, 8, 9] (some 4) 32 false).poisoned = false ∧
    (PrefetchRequest.mk [5, 6, 7, 8, 9] (some 4) 32 false).nextOffset = some 4 ∧
    (1 : Nat) < 4 ∧
    (read ⟨16, 64, 8, 2⟩ (PrefetchRequest.mk [5, 6, 7, 8, 9] (some 4) 32 false) 1 2
      FetchOutcome.ok).1 = Except.ok [6, 7] ∧
    (read ⟨16, 64, 8, 2⟩ (PrefetchRequest.mk [5, 6, 7, 8, 9] (some 4) 32 false) 1 2
      FetchOutcome.ok).2.window = 16 := by
  have h := backward_seek_resets_window ⟨16, 64, 8, 2⟩
    (PrefetchRequest.mk [5, 6, 7, 8, 9] (some 4) 32 false) 1 2 4 rfl rfl (by decide)
  exact ⟨rfl, rfl, by decide, by simpa using h.1, h.2⟩

/-- C6: starting from a fresh request, no sequence of read operations
can ever drive the Planner window above `max_window_bytes`, provided
the configured initial window respects the cap. -/
theorem window_never_exceeds_max (cfg : PrefetchConfig) (c : List Nat)
    (ops : List (Nat × Nat × FetchOutcome)) (hinit : cfg.initialWindow ≤ cfg.maxWindow) :
    (runReads cfg (freshRequest cfg c) ops).2.window ≤ cfg.maxWindow :=
  runReads_window_le cfg hinit ops (freshRequest cfg c) hinit

/-- Witness for C6: eight sequential reads on a tiny configuration,
window stays at or below the maximum of 4. -/
theorem window_never_exceeds_max_witness :
    (2 : Nat) ≤ 4 ∧
    (runReads ⟨2, 4, 3, 5⟩ (freshRequest ⟨2, 4, 3, 5⟩ [1, 2, 3, 4, 5, 6, 7, 8])
      [(0, 1, FetchOutcome.ok), (1, 1, FetchOutcome.ok), (2, 1, FetchOutcome.ok),
       (3, 1, FetchOutcome.ok), (4, 1, FetchOutcome.ok), (5, 1, FetchOutcome.ok),
       (6, 1, FetchOutcome.ok), (7, 1, FetchOutcome.ok)]).2.window ≤ 4 :=
  ⟨by decide,
   window_never_exceeds_max ⟨2, 4, 3, 5⟩ [1, 2, 3, 4, 5, 6, 7, 8]
     [(0, 1, FetchOutcome.ok), (1, 1, FetchOutcome.ok), (2, 1, FetchOutcome.ok),
      (3, 1, FetchOutcome.ok), (4, 1, FetchOutcome.ok), (5, 1, FetchOutcome.ok),
      (6, 1, FetchOutcome.ok), (7, 1, FetchOutcome.ok)] (by decide)⟩

/-- C8: every read call issued by the harness download loop requests
exactly 262144 bytes (`256 << 10`) at the offset equal to the running
total of bytes received by the earlier calls, and a read error aborts
the run immediately, the failing call being the last one issued. -/
theorem harness_read_calls (size : Nat) (readFn : Nat → Option Nat) (fuel received : Nat) :
    chainedCalls readFn received (benchRun size readFn fuel received).1 = true ∧
    (received < size → readFn received = none →
      (benchRun size readFn (fuel + 1) received).2 = RunOutcome.aborted ∧
      (benchRun size readFn (fuel + 1) received).1 = [(received, 256 <<< 10)]) := by
  constructor
  · exact benchRun_chained size readFn fuel received
  · intro hlt hnone
    rw [benchRun]
    simp [Nat.not_le.mpr hlt, hnone]

/-- Witness for C8: a 5-byte object whose oracle returns 2 bytes at
offset 0 and errors elsewhere; the call trace is chained and the run
aborts at offset 2. -/
theorem harness_read_calls_witness :
    chainedCalls (fun o => if o == 0 then some 2 else none) 0
      (benchRun 5 (fun o => if o == 0 then some 2 else none) 9 0).1 = true ∧
    (2 : Nat) < 5 ∧
    (fun o => if o == 0 then some 2 else none : Nat → Option Nat) 2 = none ∧
    (benchRun 5 (fun o => if o == 0 then some 2 else none) 4 2).2 = RunOutcome.aborted ∧
    (benchRun 5 (fun o => if o == 0 then some 2 else none) 4 2).1 =
      [(2, 256 <<< 10)] := by
  have h1 := (harness_read_calls 5 (fun o => if o == 0 then some 2 else none) 9 0).1
  have h2 := (harness_read_calls 5 (fun o => if o == 0 then some 2 else none) 3 2).2
    (by decide) rfl
  exact ⟨h1, by decide, rfl, h2.1, h2.2⟩

/-- C10: the harness loop breaks only once the received total reaches
`size`; when every read below `size` returns at least one byte the loop
finishes within `size + 1` iterations, while a read returning zero
bytes at an offset below `size` keeps the loop running forever (it
exhausts any amount of fuel). -/
theorem harness_loop_termination (size : Nat) (readFn : Nat → Option Nat) :
    (∀ fuel received r,
      (benchRun size readFn fuel received).2 = RunOutcome.done r → size ≤ r) ∧
    ((∀ off, off < size → ∃ n, readFn off = some n ∧ 1 ≤ n) →
      ∃ r, (benchRun size readFn (size + 1) 0).2 = RunOutcome.done r) ∧
    (∀ received, received < size → readFn received = some 0 →
      ∀ fuel, (benchRun size readFn fuel received).2 = RunOutcome.outOfFuel) := by
  refine ⟨benchRun_done_ge size readFn, ?_, ?_⟩
  · intro hprog
    exact benchRun_progress size readFn hprog (size + 1) 0 (by omega)
  · intro received hlt hzero fuel
    induction fuel with
    | zero => rw [benchRun]
    | succ n ih =>
      rw [benchRun]
      simpa [Nat.not_le.mpr hlt, hzero] using ih

/-- Witness for C10: with a one-byte-per-read oracle a 2-byte object
finishes (and any finish total is at least 2); with a zero-byte oracle
the loop exhausts 5 units of fuel from offset 0. -/
theorem harness_loop_termination_witness :
    (∃ r, (benchRun 2 (fun _ => some 1) 3 0).2 = RunOutcome.done r) ∧
    (benchRun 2 (fun _ => some 0) 5 0).2 = RunOutcome.outOfFuel ∧
    ((benchRun 2 (fun _ => some 1) 3 0).2 = RunOutcome.done 2 → 2 ≤ 2) := by
  refine ⟨?_, ?_, ?_⟩
  · exact (harness_loop_termination 2 (fun _ => some 1)).2.1
      (fun off _ => ⟨1, rfl, Nat.le_refl 1⟩)
  · exact (harness_loop_termination 2 (fun _ => some 0)).2.2 0 (by decide) rfl 5
  · exact fun h => (harness_loop_termination 2 (fun _ => some 1)).1 3 0 2 h

/-- C9: the throughput printed as Gbps equals
`8.8 * received / elapsed / 2^30`, which is exactly 10 percent more
than the received bits per second divided by `2^30`. -/
theorem reported_gbps_formula (r t : ℚ) :
    reportedGbps r t = (8.8 * r) / t / 2 ^ 30 ∧
    reportedGbps r t = (11 / 10) * ((8 * r) / t / 2 ^ 30) := by
  constructor
  · norm_num [reportedGbps]
  · simp only [reportedGbps, div_eq_mul_inv]
    norm_num
    ring

end PrefetchSpec
